import Mathlib

/-!
Verification of the triangular-number toolkit shared by the scripts
`ConnerFrac_v0.1.0.py`, `TriangularSquareDiff_v0.1.2.py` and
`TriangularSquareDiff_v0.1.4.py`.  Python integers are modelled by `ℤ`,
Python floor division `//` by `Int.fdiv`, and `int(math.sqrt x)` (only ever
applied to nonnegative arguments in these scripts) by `Int.sqrt`, the exact
truncated integer square root.  This idealisation is exact whenever the
double-precision square root of `x` truncates to the true integer root —
in particular for every argument below `2 ^ 52` — but not in general:
CPython's truncated float root misses true squares whose root is at or
above `2 ^ 53` (for instance `(2 ^ 53 + 1) ^ 2`), so for predicates
quantified over unbounded inputs the model captures the intended exact
arithmetic rather than the float behaviour, and the concrete inputs where
the two differ are recorded with the corresponding theorems.
-/

/-- `triangular_number n` translates `triangular_number` from
`ConnerFrac_v0.1.0.py`: `n * (n + 1) // 2` with Python floor division. -/
def triangular_number (n : ℤ) : ℤ :=
  (n * (n + 1)).fdiv 2

/-- `is_perfect_square x` translates `is_perfect_square`: negative inputs
yield `false`; otherwise the truncated square root is squared back and
compared exactly. -/
def is_perfect_square (x : ℤ) : Bool :=
  if x < 0 then false
  else
    let root := Int.sqrt x
    root * root == x

/-- `is_square_of_triangular x` translates `is_square_of_triangular` from
`ConnerFrac_v0.1.0.py` (identical copies appear in the two
`TriangularSquareDiff` scripts). -/
def is_square_of_triangular (x : ℤ) : Bool × ℤ :=
  if is_perfect_square x then
    let sqrt_x := Int.sqrt x
    let discriminant := 1 + 8 * sqrt_x
    if is_perfect_square discriminant then
      let sqrt_discriminant := Int.sqrt discriminant
      let n1 := (-1 + sqrt_discriminant).fdiv 2
      let n2 := (-1 - sqrt_discriminant).fdiv 2
      let n := max n1 n2
      if n > 0 ∧ triangular_number n = sqrt_x then (true, n) else (false, 0)
    else (false, 0)
  else (false, 0)

/-- One iteration of the `for n in range(1, max_n + 1)` loop of
`is_difference_of_triangulars`: at index `n` it either produces the matching
upper index `m` or reports failure for this `n`. -/
def diff_body (x n : ℤ) : Option ℤ :=
  let T_n := triangular_number n
  let target_T_m := T_n + x
  let discriminant := 1 + 8 * target_T_m
  if is_perfect_square discriminant then
    let sqrt_discriminant := Int.sqrt discriminant
    let m1 := (-1 + sqrt_discriminant).fdiv 2
    let m2 := (-1 - sqrt_discriminant).fdiv 2
    let m := max m1 m2
    if m > n ∧ triangular_number m = target_T_m then some m else none
  else none

/-- The search loop of `is_difference_of_triangulars`, iterating `n` upward
with the remaining iteration count `fuel`. -/
def diff_loop (x : ℤ) : ℤ → ℕ → Bool × ℤ × ℤ
  | _, 0 => (false, 0, 0)
  | n, fuel + 1 =>
    match diff_body x n with
    | some m => (true, n, m)
    | none => diff_loop x (n + 1) fuel

/-- `is_difference_of_triangulars x` translates
`is_difference_of_triangulars`: the loop runs over `n = 1, ..., 1000`. -/
def is_difference_of_triangulars (x : ℤ) : Bool × ℤ × ℤ :=
  diff_loop x 1 1000

/-- The quantity `T_(T_n²)` computed by each iteration of
`is_triangular_of_square_of_triangular`. -/
def tri_sq_tri (n : ℤ) : ℤ :=
  triangular_number (triangular_number n * triangular_number n)

/-- The search loop shared by `is_triangular_of_square_of_triangular` and
the inner loop of `is_square_of_triangular_of_square_of_triangular`: scan
`n` upward, succeed on `T_(T_n²) = x`, break as soon as `T_(T_n²) > x`. -/
def tri_loop (x : ℤ) : ℤ → ℕ → Bool × ℤ
  | _, 0 => (false, 0)
  | n, fuel + 1 =>
    let t := tri_sq_tri n
    if t = x then (true, n)
    else if t > x then (false, 0)
    else tri_loop x (n + 1) fuel

/-- `is_triangular_of_square_of_triangular x` translates the function of the
same name from `TriangularSquareDiff_v0.1.2.py` (the identical copy in
`TriangularSquareDiff_v0.1.4.py` also has bound `max_n = 20`). -/
def is_triangular_of_square_of_triangular (x : ℤ) : Bool × ℤ :=
  tri_loop x 1 20

/-- `is_square_of_triangular_of_square_of_triangular x` translates the
function of that name from `TriangularSquareDiff_v0.1.4.py`: a perfect-square
test followed by the `T_(T_n²)` scan on the root with bound `max_n = 10`. -/
def is_square_of_triangular_of_square_of_triangular (x : ℤ) : Bool × ℤ :=
  if is_perfect_square x then
    let sqrt_x := Int.sqrt x
    tri_loop sqrt_x 1 10
  else (false, 0)

/-- `is_sum_of_consecutive_triangulars x` translates the function of that
name from `TriangularSquareDiff_v0.1.4.py`. -/
def is_sum_of_consecutive_triangulars (x : ℤ) : Bool × ℤ :=
  if is_perfect_square x then
    let sqrt_x := Int.sqrt x
    let n := sqrt_x - 1
    if n > 0 then
      let T_n := triangular_number n
      let T_n_plus_1 := triangular_number (n + 1)
      if T_n + T_n_plus_1 = x then (true, n) else (false, 0)
    else (false, 0)
  else (false, 0)

/-- The body of the `for x in range(1, 10001)` loop of
`find_smallest_solution` in `ConnerFrac_v0.1.0.py`: test
`is_square_of_triangular` first and, only on success,
`is_difference_of_triangulars`. -/
def main_body (x : ℤ) : Option (ℤ × ℤ × ℤ × ℤ) :=
  let r1 := is_square_of_triangular x
  if r1.1 then
    let r2 := is_difference_of_triangulars x
    if r2.1 then some (x, r1.2, r2.2.1, r2.2.2) else none
  else none

/-- The outer scan of `find_smallest_solution`. -/
def find_loop : ℤ → ℕ → Option (ℤ × ℤ × ℤ × ℤ)
  | _, 0 => none
  | x, fuel + 1 =>
    match main_body x with
    | some r => some r
    | none => find_loop (x + 1) fuel

/-- `find_smallest_solution` translates the driver of
`ConnerFrac_v0.1.0.py`: scan `x = 1, ..., 10000`, returning the first hit
with its witnesses, or `none` (Python `None`) when the range is
exhausted. -/
def find_smallest_solution : Option (ℤ × ℤ × ℤ × ℤ) :=
  find_loop 1 10000

/-! ### Arithmetic facts about `triangular_number` -/

/-- The floor division in `triangular_number` is exact: `n * (n + 1)` is
always even, so `2 * T n = n * (n + 1)` for every integer `n`. -/
theorem two_mul_triangular (n : ℤ) : 2 * triangular_number n = n * (n + 1) := by
  obtain ⟨k, hk⟩ := Int.even_mul_succ_self n
  unfold triangular_number
  rw [hk, show k + k = 2 * k by ring, Int.mul_fdiv_cancel_left _ (by norm_num)]

theorem triangular_nonneg (n : ℤ) : 0 ≤ triangular_number n := by
  have h := two_mul_triangular n
  rcases le_or_lt 0 n with hn | hn
  · nlinarith [mul_nonneg hn (by linarith : (0 : ℤ) ≤ n + 1)]
  · nlinarith [mul_nonneg (by linarith : (0 : ℤ) ≤ -n) (by linarith : (0 : ℤ) ≤ -(n + 1))]

theorem triangular_lt_triangular {a b : ℤ} (ha : 0 ≤ a) (hab : a < b) :
    triangular_number a < triangular_number b := by
  have h1 := two_mul_triangular a
  have h2 := two_mul_triangular b
  nlinarith [mul_pos (by linarith : (0 : ℤ) < b - a) (by linarith : (0 : ℤ) < b + a + 1)]

theorem triangular_le_triangular {a b : ℤ} (ha : 0 ≤ a) (hab : a ≤ b) :
    triangular_number a ≤ triangular_number b := by
  rcases eq_or_lt_of_le hab with rfl | h
  · exact le_refl _
  · exact le_of_lt (triangular_lt_triangular ha h)

theorem le_triangular {n : ℤ} (hn : 0 ≤ n) : n ≤ triangular_number n := by
  have h := two_mul_triangular n
  nlinarith [mul_nonneg hn hn]

theorem one_le_triangular {n : ℤ} (hn : 1 ≤ n) : 1 ≤ triangular_number n :=
  le_trans hn (le_triangular (by linarith))

theorem triangular_succ (n : ℤ) :
    triangular_number (n + 1) = triangular_number n + (n + 1) := by
  have h1 := two_mul_triangular n
  have h2 := two_mul_triangular (n + 1)
  have key : 2 * triangular_number (n + 1) = 2 * triangular_number n + 2 * (n + 1) := by
    linear_combination h2 - h1
  omega

/-- The sum of two consecutive triangular numbers is the next square. -/
theorem triangular_consecutive_sum (k : ℤ) :
    triangular_number (k - 1) + triangular_number k = k * k := by
  have h1 := two_mul_triangular (k - 1)
  have h2 := two_mul_triangular k
  have key : 2 * (triangular_number (k - 1) + triangular_number k) = 2 * (k * k) := by
    linear_combination h1 + h2
  omega

/-! ### Facts about `is_perfect_square` and `Int.sqrt` -/

theorem sqrt_of_sq {r : ℤ} (hr : 0 ≤ r) : Int.sqrt (r * r) = r := by
  rw [Int.sqrt_eq, Int.natAbs_of_nonneg hr]

theorem is_perfect_square_sq {r : ℤ} (hr : 0 ≤ r) :
    is_perfect_square (r * r) = true := by
  unfold is_perfect_square
  rw [if_neg (not_lt.mpr (mul_self_nonneg r))]
  simp [sqrt_of_sq hr]

theorem sqrt_sq_of_perfect {x : ℤ} (h : is_perfect_square x = true) :
    Int.sqrt x * Int.sqrt x = x := by
  unfold is_perfect_square at h
  by_cases hx : x < 0
  · rw [if_pos hx] at h
    exact absurd h (by simp)
  · rw [if_neg hx] at h
    simpa using h

theorem nonneg_of_perfect {x : ℤ} (h : is_perfect_square x = true) : 0 ≤ x := by
  have := sqrt_sq_of_perfect h
  nlinarith [mul_self_nonneg (Int.sqrt x)]

theorem is_perfect_square_true_iff (x : ℤ) :
    is_perfect_square x = true ↔ ∃ r : ℤ, 0 ≤ r ∧ r * r = x := by
  constructor
  · intro h
    exact ⟨Int.sqrt x, Int.sqrt_nonneg x, sqrt_sq_of_perfect h⟩
  · rintro ⟨r, hr, rfl⟩
    exact is_perfect_square_sq hr

theorem is_perfect_square_neg {x : ℤ} (hx : x < 0) :
    is_perfect_square x = false := by
  unfold is_perfect_square
  rw [if_pos hx]

/-! ### Characterisation of `is_square_of_triangular` -/

/-- A successful `is_square_of_triangular` answer means exactly that the input
is the square of the returned triangular number. -/
theorem is_square_of_triangular_true_elim {x n : ℤ}
    (h : is_square_of_triangular x = (true, n)) :
    1 ≤ n ∧ triangular_number n * triangular_number n = x := by
  unfold is_square_of_triangular at h
  by_cases h1 : is_perfect_square x = true
  · rw [if_pos h1] at h
    simp only at h
    by_cases h2 : is_perfect_square (1 + 8 * Int.sqrt x) = true
    · rw [if_pos h2] at h
      by_cases h3 :
          max ((-1 + Int.sqrt (1 + 8 * Int.sqrt x)).fdiv 2)
              ((-1 - Int.sqrt (1 + 8 * Int.sqrt x)).fdiv 2) > 0 ∧
            triangular_number
                (max ((-1 + Int.sqrt (1 + 8 * Int.sqrt x)).fdiv 2)
                  ((-1 - Int.sqrt (1 + 8 * Int.sqrt x)).fdiv 2)) =
              Int.sqrt x
      · rw [if_pos h3] at h
        have hn : max ((-1 + Int.sqrt (1 + 8 * Int.sqrt x)).fdiv 2)
            ((-1 - Int.sqrt (1 + 8 * Int.sqrt x)).fdiv 2) = n := by
          simpa using congrArg Prod.snd h
        rw [hn] at h3
        refine ⟨by linarith [h3.1], ?_⟩
        rw [h3.2]
        exact sqrt_sq_of_perfect h1
      · rw [if_neg h3] at h
        exact absurd (congrArg Prod.fst h) (by simp)
    · rw [if_neg h2] at h
      exact absurd (congrArg Prod.fst h) (by simp)
  · rw [if_neg h1] at h
    exact absurd (congrArg Prod.fst h) (by simp)

/-- `is_square_of_triangular` accepts the square of any triangular number
with index at least `1`, and returns that index. -/
theorem is_square_of_triangular_of_eq {n : ℤ} (hn : 1 ≤ n) :
    is_square_of_triangular (triangular_number n * triangular_number n) =
      (true, n) := by
  have hT0 : 0 ≤ triangular_number n := triangular_nonneg n
  have hdisc : 1 + 8 * triangular_number n = (2 * n + 1) * (2 * n + 1) := by
    linear_combination 4 * two_mul_triangular n
  unfold is_square_of_triangular
  rw [if_pos (is_perfect_square_sq hT0)]
  dsimp only
  rw [sqrt_of_sq hT0, hdisc,
    if_pos (is_perfect_square_sq (by linarith)), sqrt_of_sq (by linarith)]
  rw [show (-1 + (2 * n + 1)) = 2 * n by ring,
    show (-1 - (2 * n + 1)) = 2 * (-(n + 1)) by ring,
    Int.mul_fdiv_cancel_left _ (by norm_num),
    Int.mul_fdiv_cancel_left _ (by norm_num),
    max_eq_left (by linarith : -(n + 1) ≤ n),
    if_pos ⟨by linarith, rfl⟩]

theorem is_square_of_triangular_eq_true_iff (x n : ℤ) :
    is_square_of_triangular x = (true, n) ↔
      1 ≤ n ∧ triangular_number n * triangular_number n = x := by
  constructor
  · exact is_square_of_triangular_true_elim
  · rintro ⟨hn, rfl⟩
    exact is_square_of_triangular_of_eq hn

/-- A false answer always carries the zero sentinel witness. -/
theorem is_square_of_triangular_shape (x : ℤ) :
    is_square_of_triangular x = (true, (is_square_of_triangular x).2) ∨
      is_square_of_triangular x = (false, 0) := by
  unfold is_square_of_triangular
  dsimp only
  split
  · split
    · split
      · left; rfl
      · right; rfl
    · right; rfl
  · right; rfl

theorem is_square_of_triangular_false_of_no_index {x : ℤ}
    (h : ∀ n : ℤ, 1 ≤ n → triangular_number n * triangular_number n ≠ x) :
    is_square_of_triangular x = (false, 0) := by
  rcases is_square_of_triangular_shape x with hs | hs
  · obtain ⟨hn, hx⟩ := is_square_of_triangular_true_elim hs
    exact absurd hx (h _ hn)
  · exact hs

/-! ### Characterisation of the `is_difference_of_triangulars` search -/

/-- If `T m = T n + x` with `m > n ≥ 1`, the loop body at `n` finds `m`. -/
theorem diff_body_eq_some {x n m : ℤ} (hn : 1 ≤ n) (hm : n < m)
    (hT : triangular_number m = triangular_number n + x) :
    diff_body x n = some m := by
  have hm0 : 0 ≤ 2 * m + 1 := by linarith
  have hdisc : 1 + 8 * (triangular_number n + x) = (2 * m + 1) * (2 * m + 1) := by
    rw [← hT]
    linear_combination 4 * two_mul_triangular m
  unfold diff_body
  dsimp only
  rw [hdisc, if_pos (is_perfect_square_sq hm0), sqrt_of_sq hm0]
  rw [show (-1 + (2 * m + 1)) = 2 * m by ring,
    show (-1 - (2 * m + 1)) = 2 * (-(m + 1)) by ring,
    Int.mul_fdiv_cancel_left _ (by norm_num),
    Int.mul_fdiv_cancel_left _ (by norm_num),
    max_eq_left (by linarith : -(m + 1) ≤ m),
    if_pos ⟨hm, hT⟩]

/-- A hit of the loop body really is an index of a matching triangular
number above `n`. -/
theorem diff_body_some_elim {x n m : ℤ} (h : diff_body x n = some m) :
    n < m ∧ triangular_number m = triangular_number n + x := by
  unfold diff_body at h
  simp only at h
  by_cases h1 : is_perfect_square (1 + 8 * (triangular_number n + x)) = true
  · rw [if_pos h1] at h
    by_cases h2 :
        max ((-1 + Int.sqrt (1 + 8 * (triangular_number n + x))).fdiv 2)
            ((-1 - Int.sqrt (1 + 8 * (triangular_number n + x))).fdiv 2) > n ∧
          triangular_number
              (max ((-1 + Int.sqrt (1 + 8 * (triangular_number n + x))).fdiv 2)
                ((-1 - Int.sqrt (1 + 8 * (triangular_number n + x))).fdiv 2)) =
            triangular_number n + x
    · rw [if_pos h2] at h
      have hm : max ((-1 + Int.sqrt (1 + 8 * (triangular_number n + x))).fdiv 2)
          ((-1 - Int.sqrt (1 + 8 * (triangular_number n + x))).fdiv 2) = m :=
        Option.some.inj h
      rw [hm] at h2
      exact ⟨h2.1, h2.2⟩
    · rw [if_neg h2] at h
      exact absurd h (by simp)
  · rw [if_neg h1] at h
    exact absurd h (by simp)

theorem diff_body_none_iff {x n : ℤ} (hn : 1 ≤ n) :
    diff_body x n = none ↔
      ¬ ∃ m : ℤ, n < m ∧ triangular_number m = triangular_number n + x := by
  constructor
  · rintro h ⟨m, hm, hT⟩
    rw [diff_body_eq_some hn hm hT] at h
    exact absurd h (by simp)
  · intro h
    cases hd : diff_body x n with
    | none => rfl
    | some m =>
      obtain ⟨hm, hT⟩ := diff_body_some_elim hd
      exact absurd ⟨m, hm, hT⟩ h

/-- The loop succeeds at the first index whose body hits. -/
theorem diff_loop_true {x : ℤ} (n0 : ℤ) (fuel : ℕ) {n m : ℤ}
    (hlo : n0 ≤ n) (hhi : n < n0 + fuel)
    (hbody : diff_body x n = some m)
    (hnone : ∀ j : ℤ, n0 ≤ j → j < n → diff_body x j = none) :
    diff_loop x n0 fuel = (true, n, m) := by
  induction fuel generalizing n0 with
  | zero => exact absurd hhi (by push_cast; linarith)
  | succ fuel ih =>
    rcases eq_or_lt_of_le hlo with rfl | hlt
    · unfold diff_loop
      rw [hbody]
    · have h0 : diff_body x n0 = none := hnone n0 le_rfl hlt
      unfold diff_loop
      rw [h0]
      exact ih (n0 + 1) (by linarith) (by push_cast at hhi ⊢; linarith)
        (fun j hj1 hj2 => hnone j (by linarith) hj2)

/-- What a successful loop run guarantees about the returned indices. -/
theorem diff_loop_true_elim {x n0 : ℤ} {fuel : ℕ} {n m : ℤ}
    (h : diff_loop x n0 fuel = (true, n, m)) :
    n0 ≤ n ∧ n < n0 + fuel ∧ diff_body x n = some m ∧
      ∀ j : ℤ, n0 ≤ j → j < n → diff_body x j = none := by
  induction fuel generalizing n0 with
  | zero => exact absurd (congrArg (Prod.fst) h) (by simp [diff_loop])
  | succ fuel ih =>
    unfold diff_loop at h
    cases hb : diff_body x n0 with
    | some m0 =>
      rw [hb] at h
      obtain ⟨hn, hnm⟩ : n0 = n ∧ m0 = m := by
        constructor
        · simpa using congrArg (fun p => p.2.1) h
        · simpa using congrArg (fun p => p.2.2) h
      subst hn; subst hnm
      exact ⟨le_rfl, by push_cast; linarith, hb, fun j hj1 hj2 => absurd hj1 (by linarith)⟩
    | none =>
      rw [hb] at h
      obtain ⟨h1, h2, h3, h4⟩ := ih h
      refine ⟨by linarith, by push_cast at h2 ⊢; linarith, h3, fun j hj1 hj2 => ?_⟩
      rcases eq_or_lt_of_le hj1 with rfl | hj
      · exact hb
      · exact h4 j (by linarith) hj2

/-- A false answer of the loop carries the zero sentinels. -/
theorem diff_loop_fst_false {x n0 : ℤ} {fuel : ℕ}
    (h : (diff_loop x n0 fuel).1 = false) :
    diff_loop x n0 fuel = (false, 0, 0) := by
  induction fuel generalizing n0 with
  | zero => rfl
  | succ fuel ih =>
    unfold diff_loop at h ⊢
    cases hb : diff_body x n0 with
    | some m0 => rw [hb] at h; simp at h
    | none => rw [hb] at h; exact ih h

/-- A loop run over an interval on which the body never hits fails. -/
theorem diff_loop_false {x : ℤ} (n0 : ℤ) (fuel : ℕ)
    (h : ∀ j : ℤ, n0 ≤ j → j < n0 + fuel → diff_body x j = none) :
    diff_loop x n0 fuel = (false, 0, 0) := by
  induction fuel generalizing n0 with
  | zero => rfl
  | succ fuel ih =>
    have h0 : diff_body x n0 = none := h n0 le_rfl (by push_cast; linarith)
    unfold diff_loop
    rw [h0]
    exact ih (n0 + 1) (fun j hj1 hj2 => h j (by linarith) (by push_cast at hj2 ⊢; linarith))

/-- Conversely, a failing loop run means the body never hit. -/
theorem diff_loop_false_elim {x n0 : ℤ} {fuel : ℕ}
    (h : diff_loop x n0 fuel = (false, 0, 0)) :
    ∀ j : ℤ, n0 ≤ j → j < n0 + fuel → diff_body x j = none := by
  induction fuel generalizing n0 with
  | zero => intro j hj1 hj2; exact absurd hj2 (by push_cast; linarith)
  | succ fuel ih =>
    unfold diff_loop at h
    cases hb : diff_body x n0 with
    | some m0 => rw [hb] at h; exact absurd (congrArg Prod.fst h) (by simp)
    | none =>
      rw [hb] at h
      intro j hj1 hj2
      rcases eq_or_lt_of_le hj1 with rfl | hj
      · exact hb
      · exact ih h j (by linarith) (by push_cast at hj2 ⊢; linarith)

/-! ### Characterisation of the `T_(T_n²)` scan `tri_loop` -/

theorem tri_sq_tri_lt {a b : ℤ} (ha : 1 ≤ a) (hab : a < b) :
    tri_sq_tri a < tri_sq_tri b := by
  have h1 : triangular_number a < triangular_number b :=
    triangular_lt_triangular (by linarith) hab
  have h2 : 1 ≤ triangular_number a := one_le_triangular ha
  have h3 : triangular_number a * triangular_number a <
      triangular_number b * triangular_number b := by nlinarith
  exact triangular_lt_triangular (by nlinarith) h3

theorem tri_sq_tri_le {a b : ℤ} (ha : 1 ≤ a) (hab : a ≤ b) :
    tri_sq_tri a ≤ tri_sq_tri b := by
  rcases eq_or_lt_of_le hab with rfl | h
  · exact le_refl _
  · exact le_of_lt (tri_sq_tri_lt ha h)

/-- Strict monotonicity means the early exit of the scan never skips the
unique matching index: if `tri_sq_tri n = x` lies in the scanned window the
loop returns exactly `(true, n)`. -/
theorem tri_loop_true {x : ℤ} (n0 : ℤ) (fuel : ℕ) {n : ℤ}
    (hn0 : 1 ≤ n0) (hlo : n0 ≤ n) (hhi : n < n0 + fuel)
    (hv : tri_sq_tri n = x) :
    tri_loop x n0 fuel = (true, n) := by
  induction fuel generalizing n0 with
  | zero => exact absurd hhi (by push_cast; linarith)
  | succ fuel ih =>
    rcases eq_or_lt_of_le hlo with rfl | hlt
    · unfold tri_loop
      dsimp only
      rw [if_pos hv]
    · have hne : tri_sq_tri n0 < x := by
        rw [← hv]; exact tri_sq_tri_lt hn0 hlt
      unfold tri_loop
      dsimp only
      rw [if_neg (by linarith), if_neg (by linarith)]
      exact ih (n0 + 1) (by linarith) (by linarith) (by push_cast at hhi ⊢; linarith)

theorem tri_loop_true_elim {x n0 : ℤ} {fuel : ℕ} {n : ℤ}
    (h : tri_loop x n0 fuel = (true, n)) :
    n0 ≤ n ∧ n < n0 + fuel ∧ tri_sq_tri n = x := by
  induction fuel generalizing n0 with
  | zero => exact absurd (congrArg Prod.fst h) (by simp [tri_loop])
  | succ fuel ih =>
    unfold tri_loop at h
    dsimp only at h
    by_cases h1 : tri_sq_tri n0 = x
    · rw [if_pos h1] at h
      have hn : n0 = n := by simpa using congrArg Prod.snd h
      subst hn
      exact ⟨le_rfl, by push_cast; linarith, h1⟩
    · rw [if_neg h1] at h
      by_cases h2 : tri_sq_tri n0 > x
      · rw [if_pos h2] at h
        exact absurd (congrArg Prod.fst h) (by simp)
      · rw [if_neg h2] at h
        obtain ⟨ha, hb, hc⟩ := ih h
        exact ⟨by linarith, by push_cast at hb ⊢; linarith, hc⟩

theorem tri_loop_fst_false {x n0 : ℤ} {fuel : ℕ}
    (h : (tri_loop x n0 fuel).1 = false) :
    tri_loop x n0 fuel = (false, 0) := by
  induction fuel generalizing n0 with
  | zero => rfl
  | succ fuel ih =>
    unfold tri_loop at h ⊢
    dsimp only at h ⊢
    by_cases h1 : tri_sq_tri n0 = x
    · rw [if_pos h1] at h
      simp at h
    · rw [if_neg h1] at h ⊢
      by_cases h2 : tri_sq_tri n0 > x
      · rw [if_pos h2]
      · rw [if_neg h2] at h ⊢
        exact ih h

/-- Either branch shape of a `tri_loop`-style `(Bool, witness)` result for
`is_sum_of_consecutive_triangulars`. -/
theorem is_sum_of_consecutive_triangulars_shape (x : ℤ) :
    is_sum_of_consecutive_triangulars x = (true, Int.sqrt x - 1) ∨
      is_sum_of_consecutive_triangulars x = (false, 0) := by
  unfold is_sum_of_consecutive_triangulars
  dsimp only
  split
  · split
    · split
      · left; rfl
      · right; rfl
    · right; rfl
  · right; rfl

/-! ### Characterisation of `is_sum_of_consecutive_triangulars` -/

/-- On a square `k * k` with `k ≥ 2` the predicate succeeds with witness
`k - 1`. -/
theorem is_sum_of_consecutive_triangulars_sq {k : ℤ} (hk : 2 ≤ k) :
    is_sum_of_consecutive_triangulars (k * k) = (true, k - 1) := by
  unfold is_sum_of_consecutive_triangulars
  rw [if_pos (is_perfect_square_sq (by linarith))]
  dsimp only
  rw [sqrt_of_sq (by linarith)]
  rw [if_pos (by linarith : k - 1 > 0)]
  rw [show k - 1 + 1 = k by ring, if_pos (triangular_consecutive_sum k)]

/-- A successful answer means the input was a square of some `k ≥ 2` and the
witness is `k - 1`. -/
theorem is_sum_of_consecutive_triangulars_true_elim {x n : ℤ}
    (h : is_sum_of_consecutive_triangulars x = (true, n)) :
    ∃ k : ℤ, 2 ≤ k ∧ x = k * k ∧ n = k - 1 ∧
      x = triangular_number (k - 1) + triangular_number k := by
  unfold is_sum_of_consecutive_triangulars at h
  by_cases h1 : is_perfect_square x = true
  · rw [if_pos h1] at h
    dsimp only at h
    by_cases h2 : Int.sqrt x - 1 > 0
    · rw [if_pos h2] at h
      by_cases h3 : triangular_number (Int.sqrt x - 1) +
          triangular_number (Int.sqrt x - 1 + 1) = x
      · rw [if_pos h3] at h
        have hn : Int.sqrt x - 1 = n := by simpa using congrArg Prod.snd h
        refine ⟨Int.sqrt x, by linarith, (sqrt_sq_of_perfect h1).symm, hn ▸ rfl, ?_⟩
        rw [show Int.sqrt x - 1 + 1 = Int.sqrt x by ring] at h3
        exact h3.symm
      · rw [if_neg h3] at h
        exact absurd (congrArg Prod.fst h) (by simp)
    · rw [if_neg h2] at h
      exact absurd (congrArg Prod.fst h) (by simp)
  · rw [if_neg h1] at h
    exact absurd (congrArg Prod.fst h) (by simp)

/-- Inputs that are not squares of some `k ≥ 2` are rejected with the zero
sentinel. -/
theorem is_sum_of_consecutive_triangulars_false {x : ℤ}
    (h : ¬ ∃ k : ℤ, 2 ≤ k ∧ x = k * k) :
    is_sum_of_consecutive_triangulars x = (false, 0) := by
  unfold is_sum_of_consecutive_triangulars
  by_cases h1 : is_perfect_square x = true
  · rw [if_pos h1]
    dsimp only
    have hroot := sqrt_sq_of_perfect h1
    have hle : Int.sqrt x ≤ 1 := by
      by_contra hgt
      exact h ⟨Int.sqrt x, by linarith, hroot.symm⟩
    rw [if_neg (by linarith : ¬ Int.sqrt x - 1 > 0)]
  · rw [if_neg h1]

/-! ### The driver `find_smallest_solution` -/

theorem main_body_some {x a b c : ℤ}
    (h1 : is_square_of_triangular x = (true, a))
    (h2 : is_difference_of_triangulars x = (true, b, c)) :
    main_body x = some (x, a, b, c) := by
  simp [main_body, h1, h2]

theorem main_body_none_of_sq_false {x : ℤ}
    (h : (is_square_of_triangular x).1 = false) :
    main_body x = none := by
  simp [main_body, h]

theorem main_body_none_of_diff_false {x : ℤ}
    (h : (is_difference_of_triangulars x).1 = false) :
    main_body x = none := by
  unfold main_body
  dsimp only
  split
  · rw [if_neg (by rw [h]; simp)]
  · rfl

theorem main_body_none_elim {x : ℤ} (h : main_body x = none) :
    ¬ ((is_square_of_triangular x).1 = true ∧
        (is_difference_of_triangulars x).1 = true) := by
  rintro ⟨hs, hd⟩
  simp [main_body, hs, hd] at h

/-- The driver returns the first candidate whose body hits. -/
theorem find_loop_found (x0 : ℤ) (fuel : ℕ) {y : ℤ} {r : ℤ × ℤ × ℤ × ℤ}
    (hlo : x0 ≤ y) (hhi : y < x0 + fuel) (hy : main_body y = some r)
    (hnone : ∀ j : ℤ, x0 ≤ j → j < y → main_body j = none) :
    find_loop x0 fuel = some r := by
  induction fuel generalizing x0 with
  | zero => exact absurd hhi (by push_cast; linarith)
  | succ fuel ih =>
    rcases eq_or_lt_of_le hlo with rfl | hlt
    · unfold find_loop
      rw [hy]
    · have h0 : main_body x0 = none := hnone x0 le_rfl hlt
      unfold find_loop
      rw [h0]
      exact ih (x0 + 1) (by linarith) (by push_cast at hhi ⊢; linarith)
        (fun j hj1 hj2 => hnone j (by linarith) hj2)

/-! ### Concrete evaluations, all obtained through the characterisations
(the kernel never computes an integer square root directly) -/

theorem triangular_two : triangular_number 2 = 3 := by decide

theorem sq_tri_one : is_square_of_triangular 1 = (true, 1) := by
  have h := is_square_of_triangular_of_eq (n := 1) (by norm_num)
  rw [show triangular_number 1 = 1 by decide] at h
  norm_num at h
  exact h

theorem sq_tri_nine : is_square_of_triangular 9 = (true, 2) := by
  have h := is_square_of_triangular_of_eq (n := 2) (by norm_num)
  rw [triangular_two] at h
  norm_num at h
  exact h

/-- Below `9` the only square of a positive triangular number is `1`. -/
theorem sq_tri_false_small {y : ℤ} (hy : y < 9) (hy1 : y ≠ 1) :
    is_square_of_triangular y = (false, 0) := by
  apply is_square_of_triangular_false_of_no_index
  intro n hn heq
  rcases eq_or_lt_of_le hn with rfl | h2
  · rw [show triangular_number 1 = 1 by decide] at heq
    norm_num at heq
    exact hy1 heq.symm
  · have h3 : triangular_number 2 ≤ triangular_number n :=
      triangular_le_triangular (by norm_num) (by linarith)
    rw [triangular_two] at h3
    nlinarith

/-- No positive triangular number is one more than another one: consecutive
gaps are at least `2` from index `1` on, so the inner search fails for
`x = 1` at every index. -/
theorem diff_one_false : is_difference_of_triangulars 1 = (false, 0, 0) := by
  unfold is_difference_of_triangulars
  apply diff_loop_false
  intro j hj1 hj2
  rw [diff_body_none_iff hj1]
  rintro ⟨m, hm, hT⟩
  have h1 : triangular_number (j + 1) ≤ triangular_number m :=
    triangular_le_triangular (by linarith) (by linarith)
  have h2 := triangular_succ j
  linarith

theorem diff_five : is_difference_of_triangulars 5 = (true, 1, 3) := by
  unfold is_difference_of_triangulars
  exact diff_loop_true 1 1000 le_rfl (by omega)
    (diff_body_eq_some le_rfl (by norm_num) (by decide))
    (fun j hj1 hj2 => absurd (lt_of_le_of_lt hj1 hj2) (lt_irrefl 1))

theorem diff_nine : is_difference_of_triangulars 9 = (true, 1, 4) := by
  unfold is_difference_of_triangulars
  exact diff_loop_true 1 1000 le_rfl (by omega)
    (diff_body_eq_some le_rfl (by norm_num) (by decide))
    (fun j hj1 hj2 => absurd (lt_of_le_of_lt hj1 hj2) (lt_irrefl 1))

theorem main_body_nine : main_body 9 = some (9, 2, 1, 4) :=
  main_body_some sq_tri_nine diff_nine

theorem main_body_small_none :
    ∀ j : ℤ, 1 ≤ j → j < 9 → main_body j = none := by
  intro j hj1 hj2
  interval_cases j
  · exact main_body_none_of_diff_false (by rw [diff_one_false])
  · exact main_body_none_of_sq_false (by rw [sq_tri_false_small (by norm_num) (by norm_num)])
  · exact main_body_none_of_sq_false (by rw [sq_tri_false_small (by norm_num) (by norm_num)])
  · exact main_body_none_of_sq_false (by rw [sq_tri_false_small (by norm_num) (by norm_num)])
  · exact main_body_none_of_sq_false (by rw [sq_tri_false_small (by norm_num) (by norm_num)])
  · exact main_body_none_of_sq_false (by rw [sq_tri_false_small (by norm_num) (by norm_num)])
  · exact main_body_none_of_sq_false (by rw [sq_tri_false_small (by norm_num) (by norm_num)])
  · exact main_body_none_of_sq_false (by rw [sq_tri_false_small (by norm_num) (by norm_num)])

/-! ### The claims -/

/-- C1: under the exact-integer-square-root model of `int(math.sqrt x)`,
`is_perfect_square x` is true exactly when `x` is nonnegative and has an
exact integer root, and it accepts `k * k` for every `k ≥ 0`.  At
`(2 ^ 53 + 1) ^ 2` the exact model answers `true`, while the
double-precision root of that input truncates to `2 ^ 53`, whose exact
square differs from the input — so the source, which verifies the truncated
root by exact multiplication, returns `False` there. -/
theorem C1_is_perfect_square_exact :
    (∀ x : ℤ, is_perfect_square x = true ↔ (0 ≤ x ∧ ∃ r : ℤ, r * r = x))
    ∧ (∀ k : ℤ, 0 ≤ k → is_perfect_square (k * k) = true)
    ∧ is_perfect_square (9007199254740993 * 9007199254740993) = true
    ∧ (9007199254740992 * 9007199254740992 : ℤ) ≠
        9007199254740993 * 9007199254740993 := by
  refine ⟨?_, fun k hk => is_perfect_square_sq hk,
    is_perfect_square_sq (by norm_num), by norm_num⟩
  intro x
  rw [is_perfect_square_true_iff]
  constructor
  · rintro ⟨r, hr, rfl⟩
    exact ⟨mul_self_nonneg r, r, rfl⟩
  · rintro ⟨hx, r, rfl⟩
    rcases le_or_lt 0 r with hr | hr
    · exact ⟨r, hr, rfl⟩
    · exact ⟨-r, by linarith, by ring⟩

theorem C1_is_perfect_square_exact_witness :
    (0 : ℤ) ≤ 12 ∧ is_perfect_square (12 * 12) = true :=
  ⟨by norm_num, C1_is_perfect_square_exact.2.1 12 (by norm_num)⟩

/-- C2: `triangular_number n` equals `n * (n + 1) / 2` with exact integer
arithmetic — expressed division-free as `2 * T n = n * (n + 1)` — with
`T 0 = 0`, checked also at the sample points of the spec. -/
theorem C2_triangular_exact :
    (∀ n : ℤ, 0 ≤ n → 2 * triangular_number n = n * (n + 1))
    ∧ triangular_number 0 = 0 ∧ triangular_number 1 = 1
    ∧ triangular_number 2 = 3 ∧ triangular_number 3 = 6
    ∧ triangular_number 10 = 55 ∧ triangular_number 1000 = 500500
    ∧ triangular_number 10000 = 50005000 :=
  ⟨fun n _ => two_mul_triangular n, by decide, by decide, by decide,
    by decide, by decide, by decide, by decide⟩

theorem C2_triangular_exact_witness :
    (0 : ℤ) ≤ 6 ∧ 2 * triangular_number 6 = 6 * (6 + 1) :=
  ⟨by norm_num, C2_triangular_exact.1 6 (by norm_num)⟩

/-- C3: over the exact-root model, for `x ≥ 1` the search returns
`(true, n, m)` exactly for the smallest `n` in `[1, 1000]` such that
`T n + x` is a triangular number `T m` with `m > n` (and then
`T m - T n = x`), and returns false when no `n` in range works; at `x = 5`
it returns `(true, 1, 3)` with `T 3 - T 1 = 5`.  The last conjunct
evaluates the model at `x = T (2 ^ 52) - 1`, whose unique witness is
`(n, m) = (1, 2 ^ 52)` via the discriminant `(2 ^ 53 + 1) ^ 2`: the source
misses exactly this witness, because its truncated float root of the
discriminant is `2 ^ 53` and the exact-multiplication check rejects it, so
the program answers `(False, 0, 0)` there against the claim. -/
theorem C3_difference_of_triangulars :
    (∀ x : ℤ, 1 ≤ x → ∀ n m : ℤ,
      is_difference_of_triangulars x = (true, n, m) →
        1 ≤ n ∧ n ≤ 1000 ∧ n < m ∧
          triangular_number m - triangular_number n = x ∧
          ∀ j : ℤ, 1 ≤ j → j < n →
            ¬ ∃ m2 : ℤ, j < m2 ∧
              triangular_number m2 = triangular_number j + x)
    ∧ (∀ x : ℤ, 1 ≤ x → (is_difference_of_triangulars x).1 = false →
        ∀ j : ℤ, 1 ≤ j → j ≤ 1000 →
          ¬ ∃ m2 : ℤ, j < m2 ∧
            triangular_number m2 = triangular_number j + x)
    ∧ is_difference_of_triangulars 5 = (true, 1, 3)
    ∧ triangular_number 3 - triangular_number 1 = 5
    ∧ is_difference_of_triangulars (triangular_number 4503599627370496 - 1) =
        (true, 1, 4503599627370496) := by
  refine ⟨?_, ?_, diff_five, by decide, ?_⟩
  · intro x hx n m h
    unfold is_difference_of_triangulars at h
    obtain ⟨h1, h2, h3, h4⟩ := diff_loop_true_elim h
    obtain ⟨hm, hT⟩ := diff_body_some_elim h3
    exact ⟨h1, by push_cast at h2; linarith, hm, by linarith,
      fun j hj1 hj2 => (diff_body_none_iff hj1).mp (h4 j hj1 hj2)⟩
  · intro x hx hfalse j hj1 hj2
    unfold is_difference_of_triangulars at hfalse
    have hloop := diff_loop_fst_false hfalse
    exact (diff_body_none_iff hj1).mp
      (diff_loop_false_elim hloop j hj1 (by push_cast; linarith))
  · unfold is_difference_of_triangulars
    exact diff_loop_true 1 1000 le_rfl (by omega)
      (diff_body_eq_some le_rfl (by norm_num)
        (by rw [show triangular_number 1 = 1 from by decide]; ring))
      (fun j hj1 hj2 => absurd (lt_of_le_of_lt hj1 hj2) (lt_irrefl 1))

theorem C3_difference_of_triangulars_witness :
    (1 : ℤ) ≤ 5 ∧ triangular_number 3 - triangular_number 1 = 5 :=
  ⟨by norm_num,
    (C3_difference_of_triangulars.1 5 (by norm_num) 1 3
      C3_difference_of_triangulars.2.2.1).2.2.2.1⟩

/-- C4: over the exact-root model, `is_sum_of_consecutive_triangulars x`
returns `(true, k - 1)` iff `x = k ^ 2` for some `k ≥ 2` (and then
`x = T (k-1) + T k`), and `(false, 0)` otherwise; in particular it answers
`(true, 2)` at `9`.  The last conjunct evaluates the model at
`x = (2 ^ 53 + 1) ^ 2`: the source answers `(False, 0)` there against the
claim, because its truncated float root of `x` is `2 ^ 53` and the
exact-multiplication check rejects it. -/
theorem C4_sum_of_consecutive_triangulars :
    (∀ x k : ℤ, 2 ≤ k → x = k * k →
      is_sum_of_consecutive_triangulars x = (true, k - 1))
    ∧ (∀ x n : ℤ, is_sum_of_consecutive_triangulars x = (true, n) →
        ∃ k : ℤ, 2 ≤ k ∧ x = k * k ∧ n = k - 1 ∧
          x = triangular_number (k - 1) + triangular_number k)
    ∧ (∀ x : ℤ, (¬ ∃ k : ℤ, 2 ≤ k ∧ x = k * k) →
        is_sum_of_consecutive_triangulars x = (false, 0))
    ∧ is_sum_of_consecutive_triangulars 9 = (true, 2)
    ∧ is_sum_of_consecutive_triangulars
        (9007199254740993 * 9007199254740993) =
          (true, 9007199254740993 - 1) := by
  refine ⟨?_, fun x n h => is_sum_of_consecutive_triangulars_true_elim h,
    fun x h => is_sum_of_consecutive_triangulars_false h, ?_,
    is_sum_of_consecutive_triangulars_sq (by norm_num)⟩
  · rintro x k hk rfl
    exact is_sum_of_consecutive_triangulars_sq hk
  · have h := is_sum_of_consecutive_triangulars_sq (k := 3) (by norm_num)
    norm_num at h
    exact h

theorem C4_sum_of_consecutive_triangulars_witness :
    is_sum_of_consecutive_triangulars 25 = (true, 4) := by
  have h := C4_sum_of_consecutive_triangulars.1 25 5 (by norm_num) (by norm_num)
  norm_num at h
  exact h

/-- C5: over the exact-root model the inverse-triangular round trip holds:
for every `n ≥ 1`, `is_square_of_triangular (T n * T n) = (true, n)`; and
the spec instances `1 ↦ (true, 1)`, `9 ↦ (true, 2)`, `2 ↦ false` all hold.
The last conjunct evaluates the model at `n = 2 ^ 27 + 1`, where
`T n = 2 ^ 53 + 2 ^ 27 + 2 ^ 26 + 1` is odd and lies in
`(2 ^ 53, 2 ^ 54)`, hence is not a double: the source's truncated float
root of `(T n) ^ 2` lands on `T n - 1`, the exact-multiplication check
rejects it, and the program answers `(False, 0)` there against the
claim. -/
theorem C5_square_of_triangular_roundtrip :
    (∀ n : ℤ, 1 ≤ n →
      is_square_of_triangular (triangular_number n * triangular_number n) =
        (true, n))
    ∧ is_square_of_triangular 1 = (true, 1)
    ∧ is_square_of_triangular 9 = (true, 2)
    ∧ is_square_of_triangular 2 = (false, 0)
    ∧ is_square_of_triangular
        (triangular_number 134217729 * triangular_number 134217729) =
          (true, 134217729) :=
  ⟨fun _ hn => is_square_of_triangular_of_eq hn, sq_tri_one, sq_tri_nine,
    sq_tri_false_small (by norm_num) (by norm_num),
    is_square_of_triangular_of_eq (by norm_num)⟩

theorem C5_square_of_triangular_roundtrip_witness :
    is_square_of_triangular (triangular_number 4 * triangular_number 4) =
      (true, 4) :=
  C5_square_of_triangular_roundtrip.1 4 (by norm_num)

/-- C6: for `x ≥ 1`, `is_triangular_of_square_of_triangular x` returns
`(true, n)` exactly when `x = T ((T n) ^ 2)` for some `n` in `[1, 20]` —
the early exit loses nothing because `n ↦ T ((T n) ^ 2)` is strictly
increasing from `n = 1` on. -/
theorem C6_triangular_of_square_of_triangular :
    (∀ x : ℤ, 1 ≤ x → ∀ n : ℤ,
      (is_triangular_of_square_of_triangular x = (true, n) ↔
        1 ≤ n ∧ n ≤ 20 ∧ tri_sq_tri n = x))
    ∧ (∀ n : ℤ, 1 ≤ n → tri_sq_tri n < tri_sq_tri (n + 1)) := by
  constructor
  · intro x hx n
    unfold is_triangular_of_square_of_triangular
    constructor
    · intro h
      obtain ⟨h1, h2, h3⟩ := tri_loop_true_elim h
      exact ⟨h1, by push_cast at h2; linarith, h3⟩
    · rintro ⟨h1, h2, h3⟩
      exact tri_loop_true 1 20 le_rfl h1 (by push_cast; linarith) h3
  · exact fun n hn => tri_sq_tri_lt hn (by linarith)

theorem C6_triangular_of_square_of_triangular_witness :
    is_triangular_of_square_of_triangular 45 = (true, 2) :=
  (C6_triangular_of_square_of_triangular.1 45 (by norm_num) 2).mpr
    ⟨by norm_num, by norm_num, by decide⟩

/-- C7 counterexample: at `x = 9489546 ^ 2 = (T ((T 11) ^ 2)) ^ 2` the
nested predicate answers `(false, 0)` although `x` is a perfect square whose
root is accepted by `is_triangular_of_square_of_triangular` (with witness
`11 > 10`): the claimed composition fails because the nested bound is `10`
while the one-level bound is `20`. -/
theorem C7_composition_counterexample :
    is_square_of_triangular_of_square_of_triangular (9489546 * 9489546) =
        (false, 0)
    ∧ is_perfect_square (9489546 * 9489546) = true
    ∧ is_triangular_of_square_of_triangular 9489546 = (true, 11) := by
  refine ⟨?_, is_perfect_square_sq (by norm_num), ?_⟩
  · unfold is_square_of_triangular_of_square_of_triangular
    rw [if_pos (is_perfect_square_sq (by norm_num))]
    dsimp only
    rw [sqrt_of_sq (by norm_num)]
    have hfalse : (tri_loop (9489546 : ℤ) 1 10).1 = false := by
      cases hb : (tri_loop (9489546 : ℤ) 1 10).1
      · rfl
      · have hpair : tri_loop (9489546 : ℤ) 1 10 =
            (true, (tri_loop (9489546 : ℤ) 1 10).2) := by
          rw [← hb]
        obtain ⟨h1, h2, h3⟩ := tri_loop_true_elim hpair
        have hle : tri_sq_tri (tri_loop (9489546 : ℤ) 1 10).2 ≤ tri_sq_tri 10 :=
          tri_sq_tri_le h1 (by push_cast at h2; linarith)
        rw [h3, show tri_sq_tri 10 = 4576825 by decide] at hle
        norm_num at hle
    exact tri_loop_fst_false hfalse
  · unfold is_triangular_of_square_of_triangular
    exact tri_loop_true 1 20 le_rfl (by norm_num) (by omega) (by decide)

/-- C7 (amended): the nested predicate succeeds with witness `n` exactly
when the input is a perfect square whose integer square root is accepted by
the one-level predicate with a witness `n ≤ 10`; witnesses in `[11, 20]`
are accepted by the one-level predicate but missed by the nested one. -/
theorem C7_composition_bound_ten (x n : ℤ) :
    is_square_of_triangular_of_square_of_triangular x = (true, n) ↔
      is_perfect_square x = true ∧
        is_triangular_of_square_of_triangular (Int.sqrt x) = (true, n) ∧
          n ≤ 10 := by
  unfold is_square_of_triangular_of_square_of_triangular
    is_triangular_of_square_of_triangular
  constructor
  · intro h
    by_cases h1 : is_perfect_square x = true
    · rw [if_pos h1] at h
      dsimp only at h
      obtain ⟨ha, hb, hc⟩ := tri_loop_true_elim h
      exact ⟨h1, tri_loop_true 1 20 le_rfl ha (by push_cast at hb ⊢; linarith) hc,
        by push_cast at hb; linarith⟩
    · rw [if_neg h1] at h
      exact absurd (congrArg Prod.fst h) (by simp)
  · rintro ⟨h1, h2, h3⟩
    rw [if_pos h1]
    dsimp only
    obtain ⟨ha, hb, hc⟩ := tri_loop_true_elim h2
    exact tri_loop_true 1 10 le_rfl ha (by push_cast; linarith) hc

/-- C8 counterexample: the claimed zero sentinel for negative indices fails:
Python floor division gives `triangular_number (-2) = (-2 * -1) // 2 = 1`,
not `0`. -/
theorem C8_sentinel_counterexample :
    triangular_number (-2) = 1 ∧ triangular_number (-2) ≠ 0 := by decide

/-- C8 (amended): on a negative index the function still returns
deterministically without failing, namely the nonnegative value
`T (-n - 1)` (which is `0` only for `n = -1`); and `is_perfect_square`
does return the `false` sentinel on every negative input. -/
theorem C8_negative_inputs :
    (∀ n : ℤ, n < 0 →
      triangular_number n = triangular_number (-n - 1) ∧
        0 ≤ triangular_number n)
    ∧ (∀ x : ℤ, x < 0 → is_perfect_square x = false) := by
  constructor
  · intro n hn
    refine ⟨?_, triangular_nonneg n⟩
    unfold triangular_number
    congr 1
    ring
  · exact fun x hx => is_perfect_square_neg hx

theorem C8_negative_inputs_witness :
    triangular_number (-2) = triangular_number (-(-2) - 1) ∧
      is_perfect_square (-5) = false :=
  ⟨(C8_negative_inputs.1 (-2) (by norm_num)).1,
    C8_negative_inputs.2 (-5) (by norm_num)⟩

/-- C9: the driver is a total function whose run on `1, ..., 10000` returns
the definite tuple `(9, 2, 1, 4)`: `9` satisfies both predicates with those
witnesses, and no smaller candidate satisfies both — the Lean model returns
rather than raising on every input by construction. -/
theorem C9_find_smallest_solution :
    find_smallest_solution = some (9, 2, 1, 4)
    ∧ (is_square_of_triangular 9).1 = true
    ∧ (is_difference_of_triangulars 9).1 = true
    ∧ ∀ y : ℤ, 1 ≤ y → y < 9 →
        ¬ ((is_square_of_triangular y).1 = true ∧
            (is_difference_of_triangulars y).1 = true) := by
  refine ⟨?_, by rw [sq_tri_nine], by rw [diff_nine], ?_⟩
  · unfold find_smallest_solution
    exact find_loop_found 1 10000 (by norm_num) (by omega) main_body_nine
      main_body_small_none
  · intro y hy1 hy2 hboth
    exact main_body_none_elim (main_body_small_none y hy1 hy2) hboth

theorem C9_find_smallest_solution_witness :
    ¬ ((is_square_of_triangular 3).1 = true ∧
        (is_difference_of_triangulars 3).1 = true) :=
  C9_find_smallest_solution.2.2.2 3 (by norm_num) (by norm_num)

/-- C10: every composite predicate keeps the sentinel invariant — all
witness fields are `0` on a `false` answer and at least `1` on a `true`
answer, so index `0` is never reported as a witness. -/
theorem C10_sentinel_invariant (x : ℤ) :
    ((is_square_of_triangular x).1 = false →
        (is_square_of_triangular x).2 = 0)
    ∧ ((is_square_of_triangular x).1 = true →
        1 ≤ (is_square_of_triangular x).2)
    ∧ ((is_difference_of_triangulars x).1 = false →
        (is_difference_of_triangulars x).2 = (0, 0))
    ∧ ((is_difference_of_triangulars x).1 = true →
        1 ≤ (is_difference_of_triangulars x).2.1 ∧
          1 ≤ (is_difference_of_triangulars x).2.2)
    ∧ ((is_triangular_of_square_of_triangular x).1 = false →
        (is_triangular_of_square_of_triangular x).2 = 0)
    ∧ ((is_triangular_of_square_of_triangular x).1 = true →
        1 ≤ (is_triangular_of_square_of_triangular x).2)
    ∧ ((is_square_of_triangular_of_square_of_triangular x).1 = false →
        (is_square_of_triangular_of_square_of_triangular x).2 = 0)
    ∧ ((is_square_of_triangular_of_square_of_triangular x).1 = true →
        1 ≤ (is_square_of_triangular_of_square_of_triangular x).2)
    ∧ ((is_sum_of_consecutive_triangulars x).1 = false →
        (is_sum_of_consecutive_triangulars x).2 = 0)
    ∧ ((is_sum_of_consecutive_triangulars x).1 = true →
        1 ≤ (is_sum_of_consecutive_triangulars x).2) := by
  refine ⟨?_, ?_, ?_, ?_, ?_, ?_, ?_, ?_, ?_, ?_⟩
  · intro h
    rcases is_square_of_triangular_shape x with hs | hs
    · rw [hs] at h; simp at h
    · rw [hs]
  · intro h
    have hp : is_square_of_triangular x =
        (true, (is_square_of_triangular x).2) := by
      rcases is_square_of_triangular_shape x with hs | hs
      · exact hs
      · rw [hs] at h; simp at h
    exact (is_square_of_triangular_true_elim hp).1
  · intro h
    unfold is_difference_of_triangulars at h ⊢
    rw [diff_loop_fst_false h]
  · intro h
    unfold is_difference_of_triangulars at h ⊢
    have hp : diff_loop x 1 1000 =
        (true, (diff_loop x 1 1000).2.1, (diff_loop x 1 1000).2.2) := by
      have heta : diff_loop x 1 1000 =
          ((diff_loop x 1 1000).1, (diff_loop x 1 1000).2.1,
            (diff_loop x 1 1000).2.2) := rfl
      rw [h] at heta
      exact heta
    obtain ⟨h1, _, h3, _⟩ := diff_loop_true_elim hp
    obtain ⟨hm, _⟩ := diff_body_some_elim h3
    exact ⟨h1, by linarith⟩
  · intro h
    unfold is_triangular_of_square_of_triangular at h ⊢
    rw [tri_loop_fst_false h]
  · intro h
    have hp : is_triangular_of_square_of_triangular x =
        (true, (is_triangular_of_square_of_triangular x).2) := by
      have heta : is_triangular_of_square_of_triangular x =
          ((is_triangular_of_square_of_triangular x).1,
            (is_triangular_of_square_of_triangular x).2) := rfl
      rw [h] at heta
      exact heta
    unfold is_triangular_of_square_of_triangular at hp
    exact (tri_loop_true_elim hp).1
  · intro h
    unfold is_square_of_triangular_of_square_of_triangular at h ⊢
    by_cases h1 : is_perfect_square x = true
    · rw [if_pos h1] at h ⊢
      dsimp only at h ⊢
      rw [tri_loop_fst_false h]
    · rw [if_neg h1]
  · intro h
    unfold is_square_of_triangular_of_square_of_triangular at h ⊢
    by_cases h1 : is_perfect_square x = true
    · rw [if_pos h1] at h ⊢
      dsimp only at h ⊢
      have hp : tri_loop (Int.sqrt x) 1 10 =
          (true, (tri_loop (Int.sqrt x) 1 10).2) := by
        have heta : tri_loop (Int.sqrt x) 1 10 =
            ((tri_loop (Int.sqrt x) 1 10).1,
              (tri_loop (Int.sqrt x) 1 10).2) := rfl
        rw [h] at heta
        exact heta
      exact (tri_loop_true_elim hp).1
    · rw [if_neg h1] at h
      simp at h
  · intro h
    rcases is_sum_of_consecutive_triangulars_shape x with hs | hs
    · rw [hs] at h; simp at h
    · rw [hs]
  · intro h
    have hp : is_sum_of_consecutive_triangulars x =
        (true, (is_sum_of_consecutive_triangulars x).2) := by
      rcases is_sum_of_consecutive_triangulars_shape x with hs | hs
      · rw [hs]
      · rw [hs] at h; simp at h
    obtain ⟨k, hk, _, hn, _⟩ :=
      is_sum_of_consecutive_triangulars_true_elim hp
    rw [hn]
    linarith

theorem C10_sentinel_invariant_witness :
    (is_square_of_triangular 2).2 = 0 :=
  (C10_sentinel_invariant 2).1
    (by rw [sq_tri_false_small (by norm_num) (by norm_num)])
